import Mathlib

/-!
Verification of the OSD tile-index grid model of `hd_fpv_video_tool`
(`src/osd/dji/file/tile_indices.rs` and the info command of `src/main.rs`).

The grid is a dense sequence of 16-bit tile indices over the fixed 60×22
FakeHD geometry, stored column-major (`linear = y + x*height`), with 0
meaning "no tile drawn at this cell".  Tile index values are embedded as
`Nat` (only comparisons with 0 and with marker values, and writes of 0,
occur, so 16-bit overflow never arises).
-/

/-- Tile index stored in one grid cell; 0 means the cell is empty
(`pub type TileIndex = u16;`). -/
abbrev TileIndex := Nat

/-- Screen coordinate along one axis (`osd::Coordinate`). -/
abbrev Coordinate := Nat

/-- Dimensions in tiles (`osd::dji::Dimensions`). -/
structure Dimensions where
  width : Nat
  height : Nat
deriving DecidableEq, Repr

/-- Pair of grid coordinates (`osd::Coordinates`); `Coordinates::new(x, y)`. -/
structure Coordinates where
  x : Coordinate
  y : Coordinate
deriving DecidableEq, Repr

/-- Fixed wire-format geometry: frame payloads always describe a 60×22 grid,
the FakeHD OSD format (`TILE_INDICES_DIMENSIONS_TILES`). -/
def TILE_INDICES_DIMENSIONS_TILES : Dimensions := ⟨60, 22⟩

/-- Grid of tile indices (`pub struct TileIndices(Vec<TileIndex>)`). -/
abbrev TileIndices := List TileIndex

/-- Column-major linear index of grid coordinates
(`TileIndices::screen_coordinates_to_index`): `y + x * height`. -/
def screen_coordinates_to_index (x y : Coordinate) : Nat :=
  y + x * TILE_INDICES_DIMENSIONS_TILES.height

/-- Inverse coordinate transform (`TileIndices::index_to_screen_coordinates`):
`x = index / height`, `y = index % height`. -/
def index_to_screen_coordinates (index : Nat) : Coordinates :=
  ⟨index / TILE_INDICES_DIMENSIONS_TILES.height,
   index % TILE_INDICES_DIMENSIONS_TILES.height⟩

/-- Modelled from the spec: `osd::Region` is not under `src/`.  The spec
says a Region is "an axis-aligned rectangle of grid coordinates; converted
to an inclusive coordinate range for membership tests". -/
structure Region where
  top_left : Coordinates
  bottom_right : Coordinates
deriving DecidableEq, Repr

/-- Modelled from the spec: the inclusive coordinate range a `Region` is
converted to for membership tests. -/
structure CoordinatesRange where
  first : Coordinates
  last : Coordinates
deriving DecidableEq, Repr

/-- Modelled from the spec: `Region::to_coordinates_range`, the conversion of
a rectangle to its inclusive coordinate range. -/
def Region.to_coordinates_range (r : Region) : CoordinatesRange :=
  ⟨r.top_left, r.bottom_right⟩

/-- Modelled from the spec: inclusive membership test of a coordinate pair in
a coordinate range (both axes inclusive). -/
def CoordinatesRange.contains (cr : CoordinatesRange) (c : Coordinates) : Bool :=
  decide (cr.first.x ≤ c.x) && decide (c.x ≤ cr.last.x) &&
    decide (cr.first.y ≤ c.y) && decide (c.y ≤ cr.last.y)

/-- Draining of `TileIndicesEnumeratorIter::next` over the remaining
enumerated cells: the loop skips cells whose tile index is not `> 0` and
yields `(index_to_screen_coordinates i, tile_index)` for the others. -/
def enumerateFrom : List (Nat × TileIndex) → List (Coordinates × TileIndex)
  | [] => []
  | (i, t) :: rest =>
    if 0 < t then (index_to_screen_coordinates i, t) :: enumerateFrom rest
    else enumerateFrom rest

/-- Sequence produced by `TileIndices::enumerate`: the drained enumerator over
`self.iter().enumerate()`. -/
def enumerate (g : TileIndices) : List (Coordinates × TileIndex) :=
  enumerateFrom g.enum

/-- Erasure of a region (`TileIndices::erase_region`): iterate the mutable
enumerator (which skips zero cells) and set to 0 every visited cell whose
coordinates the region's inclusive coordinate range contains. -/
def erase_region (g : TileIndices) (region : Region) : TileIndices :=
  let cr := region.to_coordinates_range
  g.enum.map fun p =>
    if 0 < p.2 ∧ cr.contains (index_to_screen_coordinates p.1) then 0 else p.2

/-- Sequential erasure of a batch of regions (`TileIndices::erase_regions`). -/
def erase_regions (g : TileIndices) (regions : List Region) : TileIndices :=
  regions.foldl erase_region g

/-- Error for an item name the layout does not know
(`pub struct UnknownOSDItem(String)`). -/
structure UnknownOSDItem where
  name : String
deriving DecidableEq, Repr

/-- Modelled from the spec: OSD item location data (OILD), supplied by the
font/layout collaborator (not under `src/`): one or more marker tile indices
identifying instances of the item, and a function from a marker's coordinates
to the full region the item occupies there. -/
structure OSDItemLocationData where
  marker_tile_indices : List TileIndex
  region : Coordinates → Region

/-- Modelled from the spec: the font-variant layout collaborator (not under
`src/`), reduced to the one capability `erase_osd_item` uses:
`find_osd_item_location_data`, the item-name → OILD lookup. -/
structure FontVariant where
  find_osd_item_location_data : String → Option OSDItemLocationData

/-- Regions collected by `TileIndices::erase_osd_item` on success: for every
marker tile index of the item, every enumerated cell holding that tile index
contributes the region the layout computes from the cell's coordinates. -/
def collected_regions (g : TileIndices) (oild : OSDItemLocationData) : List Region :=
  oild.marker_tile_indices.flatMap fun marker =>
    (enumerate g).filterMap fun p =>
      if p.2 = marker then some (oild.region p.1) else none

/-- Erasure of a named OSD item (`TileIndices::erase_osd_item`).  The Rust
method mutates `self` in place and returns `Result<(), UnknownOSDItem>`; it is
embedded state-passing style, returning the final grid together with the
optional error.  On an unknown name the error carries the name and the grid
is returned before any mutation. -/
def erase_osd_item (g : TileIndices) (font_variant : FontVariant)
    (item_name : String) : TileIndices × Option UnknownOSDItem :=
  match font_variant.find_osd_item_location_data item_name with
  | none => (g, some ⟨item_name⟩)
  | some oild => (erase_regions g (collected_regions g oild), none)

/-- Erasure of a list of named OSD items (`TileIndices::erase_osd_items`):
applies `erase_osd_item` to each name in order, stopping at the first error
(the `?` operator); mutations already applied remain in the grid. -/
def erase_osd_items (g : TileIndices) (font_variant : FontVariant) :
    List String → TileIndices × Option UnknownOSDItem
  | [] => (g, none)
  | item_name :: rest =>
    match erase_osd_item g font_variant item_name with
    | (g2, none) => erase_osd_items g2 font_variant rest
    | (g2, some e) => (g2, some e)

example : screen_coordinates_to_index 2 3 = 47 := by decide

example : index_to_screen_coordinates 47 = ⟨2, 3⟩ := by decide

/-! Basic lemmas about `erase_region` and `erase_regions`. -/

lemma length_erase_region (g : TileIndices) (r : Region) :
    (erase_region g r).length = g.length := by
  simp [erase_region]

lemma erase_region_getElem (g : TileIndices) (r : Region) (i : Nat)
    (h : i < g.length) (h2 : i < (erase_region g r).length) :
    (erase_region g r)[i] =
      if r.to_coordinates_range.contains (index_to_screen_coordinates i)
      then 0 else g[i] := by
  unfold erase_region
  simp only [List.getElem_map, List.getElem_enum]
  by_cases hc : r.to_coordinates_range.contains (index_to_screen_coordinates i) = true
  · rcases Nat.eq_zero_or_pos g[i] with h0 | hpos
    · simp [hc, h0]
    · simp [hc, hpos]
  · simp [hc]

lemma length_erase_regions (g : TileIndices) (rs : List Region) :
    (erase_regions g rs).length = g.length := by
  induction rs generalizing g with
  | nil => rfl
  | cons r rest ih =>
    show (erase_regions (erase_region g r) rest).length = g.length
    rw [ih, length_erase_region]

lemma erase_regions_getElem (g : TileIndices) (rs : List Region) (i : Nat)
    (h : i < g.length) (h2 : i < (erase_regions g rs).length) :
    (erase_regions g rs)[i] =
      if rs.any (fun r => r.to_coordinates_range.contains (index_to_screen_coordinates i))
      then 0 else g[i] := by
  induction rs generalizing g with
  | nil => simp [erase_regions]
  | cons r rest ih =>
    have hg1 : i < (erase_region g r).length := by rwa [length_erase_region]
    have h2b : i < (erase_regions (erase_region g r) rest).length := h2
    show (erase_regions (erase_region g r) rest)[i] = _
    rw [ih (erase_region g r) hg1 h2b, erase_region_getElem g r i h hg1, List.any_cons]
    by_cases hc : r.to_coordinates_range.contains (index_to_screen_coordinates i) = true
    · simp [hc]
    · simp [hc]

/-! Claims C1, C2, C7, C10: coordinate round-trip and region erasure. -/

/-- C1: for every coordinate pair (x, y) within the fixed 60×22 grid
geometry, `index_to_screen_coordinates (screen_coordinates_to_index x y)`
returns (x, y); the coordinate-to-linear-index mapping is column-major
with `linear = y + x*height`. -/
theorem claim_C1 (x y : Coordinate)
    (_hx : x < TILE_INDICES_DIMENSIONS_TILES.width)
    (hy : y < TILE_INDICES_DIMENSIONS_TILES.height) :
    index_to_screen_coordinates (screen_coordinates_to_index x y) = ⟨x, y⟩
    ∧ screen_coordinates_to_index x y = y + x * TILE_INDICES_DIMENSIONS_TILES.height := by
  refine ⟨?_, rfl⟩
  have hy22 : y < 22 := hy
  have h1 : (y + x * 22) / 22 = x := by
    rw [Nat.add_mul_div_right y x (by norm_num), Nat.div_eq_of_lt hy22, Nat.zero_add]
  have h2 : (y + x * 22) % 22 = y := by
    rw [Nat.add_mul_mod_self_right, Nat.mod_eq_of_lt hy22]
  show Coordinates.mk ((y + x * 22) / 22) ((y + x * 22) % 22) = ⟨x, y⟩
  rw [h1, h2]

/-- Witness for C1 at the concrete in-grid coordinates (59, 21). -/
theorem claim_C1_w :
    index_to_screen_coordinates (screen_coordinates_to_index 59 21) = ⟨59, 21⟩ :=
  (claim_C1 59 21 (by decide) (by decide)).1

/-- C2: erasing the same region twice yields the same grid as erasing it
once (`erase_region` is idempotent). -/
theorem claim_C2 (g : TileIndices) (r : Region) :
    erase_region (erase_region g r) r = erase_region g r := by
  apply List.ext_getElem
  · rw [length_erase_region]
  · intro i h1 h2
    have hg : i < g.length := by rwa [length_erase_region] at h2
    rw [erase_region_getElem (erase_region g r) r i h2 h1,
      erase_region_getElem g r i hg h2]
    by_cases hc : r.to_coordinates_range.contains (index_to_screen_coordinates i) = true
    · simp [hc]
    · simp [hc]

/-- C7: `erase_region` sets every cell whose coordinates lie inside the
region's inclusive coordinate range to 0, and covers the whole grid (the
result has the same length). -/
theorem claim_C7 (g : TileIndices) (r : Region) (i : Nat)
    (h2 : i < (erase_region g r).length)
    (hc : r.to_coordinates_range.contains (index_to_screen_coordinates i) = true) :
    (erase_region g r)[i] = 0 ∧ (erase_region g r).length = g.length := by
  have hg : i < g.length := by rwa [length_erase_region] at h2
  refine ⟨?_, length_erase_region g r⟩
  rw [erase_region_getElem g r i hg h2, if_pos hc]

/-- Witness for C7: a two-column grid of ones, a region covering the first
column, cell at linear index 0 (coordinates (0, 0)). -/
theorem claim_C7_w :
    (erase_region (List.replicate 44 1) ⟨⟨0, 0⟩, ⟨0, 21⟩⟩)[0] = 0 ∧
      (erase_region (List.replicate 44 1) ⟨⟨0, 0⟩, ⟨0, 21⟩⟩).length =
        (List.replicate 44 1 : TileIndices).length :=
  claim_C7 (List.replicate 44 1) ⟨⟨0, 0⟩, ⟨0, 21⟩⟩ 0
    (by rw [length_erase_region]; decide) (by decide)

/-- C10: `erase_region` leaves every cell whose coordinates lie outside the
region's inclusive coordinate range unchanged. -/
theorem claim_C10 (g : TileIndices) (r : Region) (i : Nat)
    (h : i < g.length) (h2 : i < (erase_region g r).length)
    (hc : r.to_coordinates_range.contains (index_to_screen_coordinates i) = false) :
    (erase_region g r)[i] = g[i] := by
  rw [erase_region_getElem g r i h h2, if_neg (by simp [hc])]

/-- Witness for C10: cell at linear index 22 (coordinates (1, 0)) lies
outside the first-column region and keeps its value 7. -/
theorem claim_C10_w :
    (erase_region (List.replicate 44 7) ⟨⟨0, 0⟩, ⟨0, 21⟩⟩)[22] =
      (List.replicate 44 7 : TileIndices)[22] :=
  claim_C10 (List.replicate 44 7) ⟨⟨0, 0⟩, ⟨0, 21⟩⟩ 22
    (by decide) (by rw [length_erase_region]; decide) (by decide)

/-! Claim C6: the enumerator skips zero cells. -/

lemma enumerateFrom_eq_filter_map (l : List (Nat × TileIndex)) :
    enumerateFrom l =
      (l.filter fun p => decide (0 < p.2)).map
        (fun p => (index_to_screen_coordinates p.1, p.2)) := by
  induction l with
  | nil => rfl
  | cons p rest ih =>
    obtain ⟨i, t⟩ := p
    by_cases ht : 0 < t
    · simp [enumerateFrom, List.filter_cons, ht, ih]
    · simp [enumerateFrom, List.filter_cons, ht, ih]

lemma enumerateFrom_nil_of_all_zero (l : List (Nat × TileIndex))
    (h : ∀ p ∈ l, p.2 = 0) : enumerateFrom l = [] := by
  induction l with
  | nil => rfl
  | cons p rest ih =>
    obtain ⟨i, t⟩ := p
    have ht : t = 0 := h (i, t) (List.mem_cons_self _ _)
    simp only [enumerateFrom, ht]
    exact ih fun q hq => h q (List.mem_cons_of_mem _ hq)

/-- C6: `enumerate` yields exactly the (coordinates, tile_index) pairs of the
cells whose tile index is non-zero, skipping zero-valued cells; over an
all-zero grid it yields the empty sequence; it is a pure function of the
grid, hence finite (a list) and restartable (two enumerations are equal). -/
theorem claim_C6 (g : TileIndices) :
    enumerate g =
      (g.enum.filter fun p => decide (0 < p.2)).map
        (fun p => (index_to_screen_coordinates p.1, p.2))
    ∧ (∀ c t, (c, t) ∈ enumerate g ↔
        ∃ i, ∃ h : i < g.length,
          0 < g[i] ∧ g[i] = t ∧ c = index_to_screen_coordinates i)
    ∧ ((∀ t ∈ g, t = 0) → enumerate g = [])
    ∧ enumerate g = enumerate g := by
  refine ⟨enumerateFrom_eq_filter_map g.enum, ?_, ?_, rfl⟩
  · intro c t
    rw [enumerate, enumerateFrom_eq_filter_map]
    constructor
    · intro hmem
      rw [List.mem_map] at hmem
      obtain ⟨p, hp, hfp⟩ := hmem
      rw [List.mem_filter] at hp
      obtain ⟨hpe, hq⟩ := hp
      have hex : ∃ x ∈ g.enum,
          decide (0 < x.2) = true ∧ (index_to_screen_coordinates x.1, x.2) = (c, t) :=
        ⟨p, hpe, hq, hfp⟩
      rw [List.exists_mem_enum] at hex
      obtain ⟨i, hi, hq2, hfp2⟩ := hex
      have hc2 := congrArg Prod.fst hfp2
      have ht2 := congrArg Prod.snd hfp2
      simp only at hc2 ht2
      exact ⟨i, hi, by simpa using hq2, ht2, hc2.symm⟩
    · rintro ⟨i, hi, hpos, hgt, hceq⟩
      rw [List.mem_map]
      refine ⟨(i, g[i]), ?_, ?_⟩
      · rw [List.mem_filter]
        refine ⟨?_, by simpa using hpos⟩
        have hex : ∃ x ∈ g.enum, x = (i, g[i]) := by
          rw [List.exists_mem_enum]
          exact ⟨i, hi, rfl⟩
        obtain ⟨x, hx, hxe⟩ := hex
        rwa [hxe] at hx
      · simp [hceq, hgt]
  · intro hz
    apply enumerateFrom_nil_of_all_zero
    rw [List.forall_mem_enum]
    intro i hi
    exact hz g[i] (List.getElem_mem hi)

/-- Witness for C6 at the concrete all-zero three-cell grid. -/
theorem claim_C6_w : enumerate [0, 0, 0] = [] :=
  (claim_C6 [0, 0, 0]).2.2.1 (by decide)

/-! Claims C3, C4, C5: item erasure and its error handling. -/

lemma erase_osd_item_of_find_none (g : TileIndices) (fv : FontVariant)
    (item_name : String) (h : fv.find_osd_item_location_data item_name = none) :
    erase_osd_item g fv item_name = (g, some ⟨item_name⟩) := by
  simp [erase_osd_item, h]

lemma erase_osd_item_of_find_some (g : TileIndices) (fv : FontVariant)
    (item_name : String) (oild : OSDItemLocationData)
    (h : fv.find_osd_item_location_data item_name = some oild) :
    erase_osd_item g fv item_name =
      (erase_regions g (collected_regions g oild), none) := by
  simp [erase_osd_item, h]

/-- C3: for every grid, layout, and item name the layout does not know,
`erase_osd_item` fails with an `UnknownOSDItem` error carrying exactly that
name, and the returned grid is the unmodified input grid. -/
theorem claim_C3 (g : TileIndices) (fv : FontVariant) (item_name : String)
    (h : fv.find_osd_item_location_data item_name = none) :
    erase_osd_item g fv item_name = (g, some ⟨item_name⟩) :=
  erase_osd_item_of_find_none g fv item_name h

/-- Witness for C3: a layout that knows no item, queried for "altitude"
over a concrete two-cell grid. -/
theorem claim_C3_w :
    erase_osd_item [3, 4] ⟨fun _ => none⟩ "altitude" =
      ([3, 4], some ⟨"altitude"⟩) :=
  claim_C3 [3, 4] ⟨fun _ => none⟩ "altitude" rfl

/-- C4: for every grid, layout, and item name the layout knows,
`erase_osd_item` succeeds (no error); the collected regions are exactly, for
every enumerated (non-zero) cell whose tile index equals one of the item's
marker indices (all marker indices considered), the region the layout
computes from that cell's coordinates; and the resulting grid equals the
original with exactly the cells inside any collected region set to 0. -/
theorem claim_C4 (g : TileIndices) (fv : FontVariant) (item_name : String)
    (oild : OSDItemLocationData)
    (h : fv.find_osd_item_location_data item_name = some oild) :
    erase_osd_item g fv item_name =
      (erase_regions g (collected_regions g oild), none)
    ∧ (erase_regions g (collected_regions g oild)).length = g.length
    ∧ (∀ reg : Region, reg ∈ collected_regions g oild ↔
        ∃ c t, (c, t) ∈ enumerate g ∧ t ∈ oild.marker_tile_indices ∧
          reg = oild.region c)
    ∧ (∀ i : Nat, ∀ h1 : i < g.length,
        ∀ h2 : i < (erase_regions g (collected_regions g oild)).length,
        (erase_regions g (collected_regions g oild))[i] =
          if (collected_regions g oild).any
              (fun r => r.to_coordinates_range.contains (index_to_screen_coordinates i))
          then 0 else g[i]) := by
  refine ⟨erase_osd_item_of_find_some g fv item_name oild h,
    length_erase_regions g _, ?_, ?_⟩
  · intro reg
    constructor
    · intro hm
      rw [collected_regions, List.mem_flatMap] at hm
      obtain ⟨m, hmk, hfm⟩ := hm
      rw [List.mem_filterMap] at hfm
      obtain ⟨p, hp, hval⟩ := hfm
      by_cases hpm : p.2 = m
      · rw [if_pos hpm] at hval
        exact ⟨p.1, p.2, by simpa using hp, hpm ▸ hmk, (Option.some.inj hval).symm⟩
      · rw [if_neg hpm] at hval
        exact absurd hval (by simp)
    · rintro ⟨c, t, hct, htm, hreg⟩
      rw [collected_regions, List.mem_flatMap]
      exact ⟨t, htm, List.mem_filterMap.mpr ⟨(c, t), hct, by simp [hreg]⟩⟩
  · intro i h1 h2
    exact erase_regions_getElem g (collected_regions g oild) i h1 h2

/-- Witness for C4: a four-cell grid holding the marker 5 at linear indices
1 and 3, an item with single marker 5 whose region is the cell itself. -/
theorem claim_C4_w :
    erase_osd_item [0, 5, 0, 5]
        ⟨fun n => if n = "spd" then some ⟨[5], fun c => ⟨c, c⟩⟩ else none⟩ "spd" =
      (erase_regions [0, 5, 0, 5]
        (collected_regions [0, 5, 0, 5] ⟨[5], fun c => ⟨c, c⟩⟩), none) :=
  (claim_C4 [0, 5, 0, 5]
    ⟨fun n => if n = "spd" then some ⟨[5], fun c => ⟨c, c⟩⟩ else none⟩
    "spd" ⟨[5], fun c => ⟨c, c⟩⟩ rfl).1

/-- C5: `erase_osd_items` applies `erase_osd_item` to each name in list
order and is fail-fast: with `pre` all known and `bad` unknown, running on
`pre ++ bad :: post` stops at `bad`, surfaces the `UnknownOSDItem bad`
failure, and keeps the grid produced by the successful erasures of `pre`
(which themselves all succeeded: their batch reports no error). -/
theorem claim_C5 (g : TileIndices) (fv : FontVariant)
    (pre : List String) (bad : String) (post : List String)
    (hpre : ∀ n ∈ pre, (fv.find_osd_item_location_data n).isSome = true)
    (hbad : fv.find_osd_item_location_data bad = none) :
    erase_osd_items g fv (pre ++ bad :: post) =
      ((erase_osd_items g fv pre).1, some ⟨bad⟩)
    ∧ (erase_osd_items g fv pre).2 = none := by
  induction pre generalizing g with
  | nil =>
    refine ⟨?_, rfl⟩
    show erase_osd_items g fv (bad :: post) = _
    simp only [erase_osd_items, erase_osd_item_of_find_none g fv bad hbad]
  | cons n rest ih =>
    obtain ⟨oild, hoild⟩ :=
      Option.isSome_iff_exists.mp (hpre n (List.mem_cons_self n rest))
    have hstep := erase_osd_item_of_find_some g fv n oild hoild
    have hrest : ∀ m ∈ rest, (fv.find_osd_item_location_data m).isSome = true :=
      fun m hm => hpre m (List.mem_cons_of_mem n hm)
    have ihg := ih (erase_regions g (collected_regions g oild)) hrest
    constructor
    · show erase_osd_items g fv ((n :: rest) ++ bad :: post) = _
      rw [List.cons_append]
      simp only [erase_osd_items, hstep]
      rw [ihg.1]
    · simp only [erase_osd_items, hstep]
      exact ihg.2

/-- Witness for C5: layout knowing only "alt", called on ["alt", "bogus",
"rssi"] over a one-cell grid: it stops at "bogus" with that very name in the
error and keeps the grid produced by erasing "alt". -/
theorem claim_C5_w :
    erase_osd_items [9] ⟨fun n => if n = "alt" then some ⟨[9], fun c => ⟨c, c⟩⟩ else none⟩
        (["alt"] ++ "bogus" :: ["rssi"]) =
      ((erase_osd_items [9]
          ⟨fun n => if n = "alt" then some ⟨[9], fun c => ⟨c, c⟩⟩ else none⟩
          ["alt"]).1, some ⟨"bogus"⟩)
    ∧ (erase_osd_items [9]
        ⟨fun n => if n = "alt" then some ⟨[9], fun c => ⟨c, c⟩⟩ else none⟩
        ["alt"]).2 = none :=
  claim_C5 [9] ⟨fun n => if n = "alt" then some ⟨[9], fun c => ⟨c, c⟩⟩ else none⟩
    ["alt"] "bogus" ["rssi"]
    (by intro n hn; rw [List.mem_singleton] at hn; subst hn; rfl) rfl

/-! Claim C8: the length invariant and decode-time validation. -/

/-- Modelled from the spec: the load-failure error of the OSD recording
reader (the reader is not under `src/`); it is raised for corrupt or
truncated frame data, here recorded with the offending frame length. -/
structure RecordingLoadFailure where
  frame_length : Nat
deriving DecidableEq, Repr

/-- Wrapper `TileIndices::new` (it performs no validation itself). -/
def TileIndices_new (inner : List TileIndex) : TileIndices := inner

/-- Modelled from the spec: the OSD recording reader (not under `src/`)
rejects at decode time, with a `RecordingLoadFailure`, any frame whose
tile-index payload length differs from width×height of the fixed 60×22
geometry; a conforming payload is wrapped via `TileIndices::new`.  The
`Except` result is all-or-nothing: there is no partial success. -/
def decode_frame_tile_indices (data : List TileIndex) :
    Except RecordingLoadFailure TileIndices :=
  if data.length =
      TILE_INDICES_DIMENSIONS_TILES.width * TILE_INDICES_DIMENSIONS_TILES.height
  then .ok (TileIndices_new data) else .error ⟨data.length⟩

lemma length_erase_osd_item (g : TileIndices) (fv : FontVariant) (n : String) :
    ((erase_osd_item g fv n).1).length = g.length := by
  cases h : fv.find_osd_item_location_data n with
  | none => simp [erase_osd_item, h]
  | some oild => simp [erase_osd_item, h, length_erase_regions]

lemma length_erase_osd_items (g : TileIndices) (fv : FontVariant)
    (ns : List String) : ((erase_osd_items g fv ns).1).length = g.length := by
  induction ns generalizing g with
  | nil => rfl
  | cons n rest ih =>
    cases hi : erase_osd_item g fv n with
    | mk g2 err =>
      have hlen : g2.length = g.length := by
        have := length_erase_osd_item g fv n
        rwa [hi] at this
      cases err with
      | none => simp only [erase_osd_items, hi]; rw [ih g2, hlen]
      | some e => simp only [erase_osd_items, hi]; exact hlen

/-- C8: a grid decoded from a frame always has length exactly width×height
of the fixed 60×22 geometry (1320 entries); any frame whose payload length
deviates is rejected at decode time with a `RecordingLoadFailure` (the
`Except` result is never a partial success); and the length invariant is
preserved by every grid operation. -/
theorem claim_C8 :
    TILE_INDICES_DIMENSIONS_TILES.width * TILE_INDICES_DIMENSIONS_TILES.height = 1320
    ∧ (∀ data g, decode_frame_tile_indices data = .ok g → g.length = 1320)
    ∧ (∀ data, data.length ≠ 1320 →
        decode_frame_tile_indices data = .error ⟨data.length⟩)
    ∧ (∀ g r, (erase_region g r).length = g.length)
    ∧ (∀ g rs, (erase_regions g rs).length = g.length)
    ∧ (∀ g fv n, ((erase_osd_item g fv n).1).length = g.length)
    ∧ (∀ g fv ns, ((erase_osd_items g fv ns).1).length = g.length) := by
  refine ⟨rfl, ?_, ?_, length_erase_region, length_erase_regions,
    length_erase_osd_item, length_erase_osd_items⟩
  · intro data g hok
    by_cases hl : data.length = 1320
    · have : decode_frame_tile_indices data = .ok (TileIndices_new data) := by
        simp only [decode_frame_tile_indices]
        rw [if_pos (by rw [hl]; rfl)]
      rw [this] at hok
      obtain rfl := (Except.ok.injEq ..) ▸ hok
      exact hl
    · have : decode_frame_tile_indices data = .error ⟨data.length⟩ := by
        simp only [decode_frame_tile_indices]
        rw [if_neg (by simpa using hl)]
      rw [this] at hok
      exact absurd hok (by simp)
  · intro data hl
    simp only [decode_frame_tile_indices]
    rw [if_neg (by simpa using hl)]

/-- Witness for C8: a one-cell payload is rejected, carrying its length 1. -/
theorem claim_C8_w : decode_frame_tile_indices [7] = .error ⟨1⟩ :=
  claim_C8.2.2.1 [7] (by decide)

/-! Claim C9: the info command's refresh-rate reporting
(`display_osd_file_info_command` in `src/main.rs`). -/

/-- Modelled from the spec: a Frame pairs a video-frame index with one grid
(the recording reader producing frames is not under `src/`); the update-rate
line of the info command consults only the last frame's index and the frame
count. -/
structure OSDFrame where
  index : Nat
  tile_indices : TileIndices

/-- Refresh interval in video frames:
`last_frame.index() as f64 / frames.len() as f64`, embedded over ℚ. -/
def refresh_interval_frames (last_index frame_count : Nat) : ℚ :=
  (last_index : ℚ) / (frame_count : ℚ)

/-- Rounding used by `refresh_interval_frames.round()`: Rust's `f64::round`
rounds half away from zero, which for the nonnegative values arising here
equals ⌊x + 1/2⌋. -/
def rat_round (x : ℚ) : ℤ := ⌊x + 1/2⌋

/-- Interval phrase of the update-rate line: the code matches the rounded
interval, printing "every frame" for 1 and "every {n} frames" otherwise. -/
def refresh_interval_frames_str (last_index frame_count : Nat) : String :=
  let r : ℤ := rat_round (refresh_interval_frames last_index frame_count)
  if r = 1 then "every frame" else "every " ++ toString r ++ " frames"

/-- Refresh-rate estimate `60.0 / refresh_interval_frames`, embedded over ℚ
(`let refresh_freq = 60.0 / refresh_interval_frames`). -/
def refresh_freq (last_index frame_count : Nat) : ℚ :=
  60 / refresh_interval_frames last_index frame_count

/-- Interval phrase of the "OSD update rate" line printed by
`display_osd_file_info_command`: it is produced exactly when the frame list
is non-empty (`if let Some(last_frame) = frames.last()`); the command itself
never fails in this block. -/
def osd_update_rate_line (frames : List OSDFrame) : Option String :=
  match frames.getLast? with
  | none => none
  | some last_frame =>
      some (refresh_interval_frames_str last_frame.index frames.length)

lemma rat_round_eq_round (x : ℚ) : rat_round x = round x := by
  rw [round_eq, rat_round]

/-- C9 (failing-input evaluation): on a single-frame recording whose video
frame index is 0, the info command's update-rate line is produced (the
command does not fail) but reads "every 0 frames" — together with the f64
divisions by zero printed as infinite percentages and rates — rather than
the graceful "n/a" the claim requires. -/
theorem claim_C9 :
    osd_update_rate_line [⟨0, List.replicate 1320 0⟩] = some "every 0 frames"
    ∧ "every 0 frames" ≠ "n/a" := by
  refine ⟨?_, by decide⟩
  unfold osd_update_rate_line
  simp only [List.getLast?_singleton, List.length_singleton]
  have h : refresh_interval_frames 0 1 = 0 := by
    unfold refresh_interval_frames; norm_num
  unfold refresh_interval_frames_str
  rw [h, rat_round_eq_round, round_zero]
  rfl
